import Mathlib

/-
Verification of the MetaWards core data model against its specification.

This file gives a shallow embedding of the claim-relevant parts of the
MetaWards source:

  * `src/metawards/_ward.py`             (Ward builder: workers/players maps)
  * `src/metawards/iterators/_advance_additional.py` (scripted seeding)
  * `src/metawards/utils/_get_functions.py`          (staged plugin dispatch)
  * `src/metawards/mixers/_mix_custom.py`            (custom mixer merge)
  * `src/metawards/_networks.py`                     (multi-demographic build)

Python floats are modelled as exact rationals (the claim-relevant code uses
only +, -, abs and comparisons against the constants 1.0, 1e-10 and 1e-6, so
the control flow is faithfully captured by exact arithmetic).  Python dicts
are modelled as association lists in insertion order with pairwise-distinct
keys, which matches dict insert/update/delete/iteration semantics.  Fallible
Python code (raise) is modelled with `Except String`.

Parts of the repository referenced by the embedded code but whose source
files are not available (`_wards.py`, `_wardinfo.py`, `_network.py`,
`_demographics.py`, the default `merge_core` list) are modelled from the
specification; each such definition carries a doc comment starting with
`Modelled from the spec:`.
-/

namespace MetaWards

instance {ε α : Type} [DecidableEq ε] [DecidableEq α] : DecidableEq (Except ε α) := by
  intro a b
  cases a <;> cases b <;> first
    | (apply isFalse; intro h; exact Except.noConfusion h)
    | (rename_i x y
       exact if h : x = y then isTrue (by rw [h]) else isFalse (by intro hh; cases hh; exact h rfl))

/-- Returns `true` exactly on an `Except.ok` value (Python: the call did not
raise). -/
def exceptIsOk {ε α : Type} : Except ε α → Bool
  | Except.ok _ => true
  | Except.error _ => false

/-- Modelled from the spec: the `WardInfo` record (file `_wardinfo.py` is not
available).  Per the spec it is the (name, code, authority, region) metadata
record used as an unresolved map key. -/
structure WardInfo where
  name : String
  code : String
  authority : String
  region : String
deriving DecidableEq, Repr

/-- The null `WardInfo()` (all fields empty). -/
def WardInfo.null : WardInfo := ⟨"", "", "", ""⟩

/-- A key of the `workers`/`players` dicts of a `Ward`: either a resolved
integer ward id or an unresolved `WardInfo` (`_ward.py` stores both kinds in
the same dict). -/
inductive WKey where
  | id : ℤ → WKey
  | info : WardInfo → WKey
deriving DecidableEq, Repr

/-- `isinstance(key, int)` together with the positivity requirement on ward
ids, as a Boolean. -/
def isPosIdKey : WKey → Bool
  | WKey.id n => decide (0 < n)
  | WKey.info _ => false

/-- A Python dict with `WKey` keys, as an association list in insertion
order.  All operations below preserve the pairwise-distinct-keys invariant. -/
abbrev WMap (β : Type) := List (WKey × β)

/-- Dict lookup (`d.get(k)` / `d[k]`). -/
def alookup {β : Type} (k : WKey) : WMap β → Option β
  | [] => none
  | (k', v) :: rest => if k' = k then some v else alookup k rest

/-- Dict store `d[k] = v`: updates the entry in place when the key is
present, otherwise appends it (Python insertion order). -/
def aset {β : Type} (k : WKey) (v : β) : WMap β → WMap β
  | [] => [(k, v)]
  | (k', v') :: rest => if k' = k then (k', v) :: rest else (k', v') :: aset k v rest

/-- Dict delete `del d[k]`: removes the (unique) entry with key `k`. -/
def aerase {β : Type} (k : WKey) : WMap β → WMap β
  | [] => []
  | (k', v') :: rest => if k' = k then rest else (k', v') :: aerase k rest

/-- `list(d.keys())` in insertion order. -/
def wkeys {β : Type} (m : WMap β) : List WKey := m.map Prod.fst

/-- `list(d.values())` in insertion order. -/
def wvals {β : Type} (m : WMap β) : List β := m.map Prod.snd

/-- The tolerance `tiny = 1e-10` used throughout `_ward.py`. -/
def tiny : ℚ := 1 / 10000000000

/-- `abs` on rationals, written out so that concrete evaluations unfold. -/
def qabs (q : ℚ) : ℚ := if q < 0 then -q else q

/-- `_as_positive_integer` from `_ward.py`: rejects negative numbers, and
zero when `zero_allowed` is false. -/
def asPositiveInteger (n : ℤ) (zero_allowed : Bool) : Except String ℤ :=
  if n < 0 then Except.error "is negative - it must be positive"
  else if zero_allowed = false ∧ n = 0 then Except.error "This value cannot be equal to zero"
  else Except.ok n

/-- `_as_positive_float` from `_ward.py`: rejects negative numbers. -/
def asPositiveFloat (q : ℚ) : Except String ℚ :=
  if q < 0 then Except.error "is not greater or equal to zero" else Except.ok q

/-- The ward-centre position: unset, x/y (km) or lat/long, as stored in
`Ward._pos` (a dict with either no keys, x and y, or lat and long). -/
inductive WPos where
  | null : WPos
  | xy : ℚ → ℚ → WPos
  | latlong : ℚ → ℚ → WPos
deriving DecidableEq, Repr

/-- The `Ward` builder state (`_ward.py`).  Fields mirror the Python
attributes `_id`, `_info`, `_workers`, `_players`, `_player_total`,
`_num_workers`, `_num_players`, `_pos` and `_auto_assign_players`. -/
structure Ward where
  id : Option ℤ
  info : WardInfo
  workers : WMap ℤ
  players : WMap ℚ
  player_total : ℚ
  num_workers : ℤ
  num_players : ℤ
  pos : WPos
  auto_assign_players : Bool
deriving DecidableEq, Repr

/-- `Ward._resolve_destination` restricted to the argument shapes the claims
exercise (an explicit id, an explicit `WardInfo`, or `None` meaning the home
ward).  An integer destination is validated positive and nonzero. -/
def resolveDestination (w : Ward) (dest : Option WKey) : Except String WKey :=
  match dest with
  | none =>
    match w.id with
    | none =>
      if w.info = WardInfo.null then Except.error "You cannot add to a null destination"
      else Except.ok (WKey.info w.info)
    | some i => Except.ok (WKey.id i)
  | some (WKey.id n) => do
    let n ← asPositiveInteger n false
    Except.ok (WKey.id n)
  | some (WKey.info i) => Except.ok (WKey.info i)

/-- `Ward.subtract_workers` (`_ward.py` lines 364-379), translated verbatim.
The final branch is the source line `self._workers -= number`, which applies
`-=` to the dict itself and therefore raises `TypeError` in Python. -/
def Ward.subtract_workers (w : Ward) (number : ℤ) (dest : Option WKey) : Except String Ward := do
  let d ← resolveDestination w dest
  let n ← asPositiveInteger number true
  match alookup d w.workers with
  | none => Except.ok w
  | some c =>
    if n ≥ c then
      Except.ok { w with workers := aerase d w.workers, num_workers := w.num_workers - c }
    else
      Except.error "TypeError: unsupported operand types for -= on dict and int"

/-- `Ward.add_player_weight` (`_ward.py` lines 381-412). -/
def Ward.add_player_weight (w : Ward) (weight : ℚ) (dest : Option WKey) : Except String Ward := do
  let weight ← asPositiveFloat weight
  let d ← resolveDestination w dest
  if weight < tiny then Except.ok w
  else
    let weight := if qabs (weight - w.player_total) < tiny then w.player_total else weight
    if weight > w.player_total then
      Except.error "the sum of weights must be <= 1.0"
    else
      let players := aset d ((alookup d w.players).getD 0 + weight) w.players
      let pt := w.player_total - weight
      Except.ok { w with players := players,
                         player_total := if pt < tiny then 0 else pt }

/-- `Ward.subtract_player_weight` (`_ward.py` lines 414-437), translated
verbatim: note that the source deletes the whole destination entry
(`del self._players[destination]`) even when the capped weight is strictly
smaller than the stored weight. -/
def Ward.subtract_player_weight (w : Ward) (weight : ℚ) (dest : Option WKey) :
    Except String Ward := do
  let weight ← asPositiveFloat weight
  let d ← resolveDestination w dest
  if weight < tiny then Except.ok w
  else
    match alookup d w.players with
    | none => Except.ok w
    | some cur =>
      let weight := if weight > cur then cur else weight
      let pt := w.player_total + weight
      Except.ok { w with players := aerase d w.players,
                         player_total := if qabs (pt - 1) < tiny then 1 else pt }

/-- `Ward.assert_sane` (`_ward.py` lines 181-194). -/
def Ward.assert_sane (w : Ward) : Except String Unit :=
  match w.id with
  | none => Except.error "AssertionError: ward id is None"
  | some i =>
    if i ≤ 0 then Except.error "AssertionError: ward id is not positive"
    else
      let t := (wvals w.players).sum + w.player_total
      if qabs (t - 1) > 1 / 1000000 then Except.error "Player sum should equal 1.0"
      else
        let t2 := (wvals w.workers).sum
        if qabs ((t2 : ℚ) - (w.num_workers : ℚ)) > 1 / 1000000 then
          Except.error "Worker sum mismatch"
        else Except.ok ()

/-- Modelled from the spec: the `Wards` collection (file `_wards.py` is not
available) as far as `Ward.resolve` uses it, namely membership test
(`key in wards`) and lookup of the integer index of a `WardInfo`
(`wards.index(key)`).  Spec: "An ordered collection of Ward by id index,
supporting lookup by WardInfo -> index". -/
abbrev WardsLookup := List (WardInfo × ℤ)

/-- `WardInfo -> index` lookup in the modelled `Wards` collection;
`none` when the `WardInfo` is not present. -/
def lookupWard (ws : WardsLookup) (i : WardInfo) : Option ℤ :=
  match ws with
  | [] => none
  | (i', n) :: rest => if i' = i then some n else lookupWard rest i

/-- One map-resolution loop of `Ward.resolve` (`_ward.py` lines 311-331):
iterate over a snapshot `ks` of the keys; for each non-integer key present
in the wards collection, fail on an index collision, otherwise store the
value under the integer index and delete the old key.  Non-integer keys
absent from the collection are left untouched. -/
def resolveMap {β : Type} (ws : WardsLookup) : List WKey → WMap β → Except String (WMap β)
  | [], m => Except.ok m
  | k :: rest, m =>
    match k with
    | WKey.id _ => resolveMap ws rest m
    | WKey.info i =>
      match lookupWard ws i with
      | none => resolveMap ws rest m
      | some idx =>
        if (alookup (WKey.id idx) m).isSome then
          Except.error "KeyError: Duplicate keys"
        else
          match alookup k m with
          | none => resolveMap ws rest m
          | some v => resolveMap ws rest (aerase k (aset (WKey.id idx) v m))

/-- `Ward.resolve` (`_ward.py` lines 301-331): resolve the workers map, then
the players map. -/
def Ward.resolve (w : Ward) (ws : WardsLookup) : Except String Ward := do
  let workers ← resolveMap ws (wkeys w.workers) w.workers
  let players ← resolveMap ws (wkeys w.players) w.players
  Except.ok { w with workers := workers, players := players }

/-- `keys.sort()` followed by the per-key `isinstance(key, int)` check of
`get_worker_lists`/`get_player_lists`: succeeds with the keys as integers
exactly when every key is an integer id (an unresolved `WardInfo` key makes
the Python code raise - a `TypeError` from sorting mixed types or the
explicit `KeyError`; the two error paths are merged here). -/
def keysToInts : List WKey → Except String (List ℤ)
  | [] => Except.ok []
  | WKey.id n :: rest => do
    let is ← keysToInts rest
    Except.ok (n :: is)
  | WKey.info _ :: _ => Except.error "Cannot create list as link is unresolved"

/-- The integer ids among a key list, in order. -/
def idsOf (ks : List WKey) : List ℤ :=
  ks.filterMap (fun k => match k with | WKey.id n => some n | WKey.info _ => none)

/-- Keys sorted ascending, failing on an unresolved key. -/
def sortKeysE (ks : List WKey) : Except String (List ℤ) := do
  let is ← keysToInts ks
  Except.ok (List.insertionSort (fun a b => a ≤ b) is)

/-- `Ward.get_worker_lists` (`_ward.py` lines 508-529): destination ids
sorted ascending, with the worker count for each destination. -/
def Ward.get_worker_lists (w : Ward) : Except String (List ℤ × List ℤ) := do
  let ss ← sortKeysE (wkeys w.workers)
  Except.ok (ss, ss.map (fun k => (alookup (WKey.id k) w.workers).getD 0))

/-- `Ward.get_player_lists` (`_ward.py` lines 531-565).  When auto-assign is
active (and not suppressed by `no_auto_assign`) the ward's own id is
appended to the key list whenever it is not already a key, and the residual
`player_total` is added to the weight reported for the own id.  A `None` id
would be appended as a `None` key and make the Python sort/int-check raise. -/
def Ward.get_player_lists (w : Ward) (no_auto_assign : Bool) :
    Except String (List ℤ × List ℚ) := do
  let auto := !no_auto_assign && w.auto_assign_players
  let keys1 ←
    if auto then
      match w.id with
      | some i =>
        Except.ok (if WKey.id i ∈ wkeys w.players then wkeys w.players
                   else wkeys w.players ++ [WKey.id i])
      | none => Except.error "Cannot create list as link is unresolved"
    else Except.ok (wkeys w.players)
  let ss ← sortKeysE keys1
  Except.ok (ss, ss.map (fun k =>
    (alookup (WKey.id k) w.players).getD 0 +
      (if auto = true ∧ w.id = some k then w.player_total else 0)))

/-- The serialisable dictionary produced by `Ward.to_data` (`_ward.py` lines
658-687).  Optional entries model keys that `to_data` only writes
conditionally (`position` when set, `auto_assign_players` only when false,
`workers`/`players` only when non-empty). -/
structure WardData where
  id : Option ℤ
  position : WPos
  info : WardInfo
  auto_assign_players : Option Bool
  num_workers : ℤ
  num_players : ℤ
  workers : Option (List ℤ × List ℤ)
  players : Option (List ℤ × List ℚ)
deriving DecidableEq, Repr

/-- `Ward.to_data` (`_ward.py` lines 658-687).  The `info` entry is the
`WardInfo` record itself: `WardInfo.to_data`/`from_data` (not available in
src) are modelled from the spec as the identity round-trip of the
(name, code, authority, region) record. -/
def Ward.to_data (w : Ward) : Except String WardData := do
  let wk ← w.get_worker_lists
  let pk ← w.get_player_lists true
  Except.ok {
    id := w.id
    position := w.pos
    info := w.info
    auto_assign_players := if w.auto_assign_players then none else some false
    num_workers := w.num_workers
    num_players := w.num_players
    workers := if wk.1.isEmpty then none else some wk
    players := if pk.1.isEmpty then none else some pk }

/-- The worker-insertion loop of `Ward.from_data`: validates each
destination (positive, nonzero) and population (non-negative) and stores
them with `ward._workers[d] = p`. -/
def insertWorkerEntries : List (ℤ × ℤ) → WMap ℤ → Except String (WMap ℤ)
  | [], m => Except.ok m
  | (d, p) :: rest, m => do
    let d ← asPositiveInteger d false
    let p ← asPositiveInteger p true
    insertWorkerEntries rest (aset (WKey.id d) p m)

/-- The player-insertion loop of `Ward.from_data`: validates each
destination (positive, nonzero) and weight (non-negative) and stores them
with `ward._players[d] = w`. -/
def insertPlayerEntries : List (ℤ × ℚ) → WMap ℚ → Except String (WMap ℚ)
  | [], m => Except.ok m
  | (d, q) :: rest, m => do
    let d ← asPositiveInteger d false
    let q ← asPositiveFloat q
    insertPlayerEntries rest (aset (WKey.id d) q m)

/-- `Ward.from_data` (`_ward.py` lines 689-749) for non-empty data: rebuild
the ward, recompute `num_workers` as the sum of the stored counts (checking
it against the stored `num_workers` when that is positive), recompute
`player_total = 1 - sum(weights)` (clamping within `1e-10` of zero to zero
and failing when negative), and finally `assert_sane`. -/
def Ward.from_data (d : WardData) : Except String Ward := do
  let id ← match d.id with
    | none => Except.ok (none : Option ℤ)
    | some i => do
      let i ← asPositiveInteger i false
      Except.ok (some i)
  let auto := d.auto_assign_players.getD true
  let nplayers ← asPositiveInteger d.num_players true
  let wlists := d.workers.getD ([], [])
  let workers ← insertWorkerEntries (wlists.1.zip wlists.2) []
  let nworkers := (wvals workers).sum
  if d.num_workers > 0 ∧ nworkers ≠ d.num_workers then
    Except.error "Disagreement in number of workers"
  else
    let plists := d.players.getD ([], [])
    let players ← insertPlayerEntries (plists.1.zip plists.2) []
    let pt0 := 1 - (wvals players).sum
    let pt ← if qabs pt0 < tiny then Except.ok (0 : ℚ)
             else if pt0 < 0 then
               Except.error "The sum of player weights cannot be greater than one"
             else Except.ok pt0
    let ward : Ward := {
      id := id, info := d.info, workers := workers, players := players,
      player_total := pt, num_workers := nworkers, num_players := nplayers,
      pos := d.position, auto_assign_players := auto }
    let _ ← ward.assert_sane
    Except.ok ward

/-- Python dict equality (order-insensitive): each entry of one dict is
present with the same value in the other. -/
def dictBeq {β : Type} [DecidableEq β] (a b : WMap β) : Bool :=
  a.all (fun kv => decide (alookup kv.1 b = some kv.2)) &&
    b.all (fun kv => decide (alookup kv.1 a = some kv.2))

/-- `Ward.__eq__`: equality of `__dict__`, with the two maps compared as
Python dicts (order-insensitive) and every other attribute compared for
equality. -/
def wardEq (a b : Ward) : Bool :=
  decide (a.id = b.id) && decide (a.info = b.info) &&
    dictBeq a.workers b.workers && dictBeq a.players b.players &&
    decide (a.player_total = b.player_total) &&
    decide (a.num_workers = b.num_workers) &&
    decide (a.num_players = b.num_players) &&
    decide (a.pos = b.pos) &&
    decide (a.auto_assign_players = b.auto_assign_players)

/-- `Ward.from_data(ward.to_data()) == ward`, as a Boolean: serialisation
followed by deserialisation succeeds and yields a ward equal (in the sense
of `Ward.__eq__`) to the original. -/
def roundTrips (w : Ward) : Bool :=
  match (Ward.to_data w).bind Ward.from_data with
  | Except.ok w' => wardEq w' w
  | Except.error _ => false

/-- The mutable per-network state touched by `advance_additional`: the
per-node play susceptibles (doubles in the source), the stage-0 row of the
play infections (integers), and a count of the warnings emitted so far
(`Console.warning` calls).  Arrays are 1-based with index 0 a sentinel. -/
structure SeedState where
  play_suscept : List ℚ
  play_infections0 : List ℤ
  warnings : ℕ
deriving DecidableEq, Repr

/-- Modelled from the spec: `network.get_node_index` (file `_network.py` is
not available).  Spec: recorded ward ids are 1-based with index 0 reserved
as sentinel; a node outside the network raises. -/
def get_node_index (st : SeedState) (w : ℕ) : Except String ℕ :=
  if 1 ≤ w ∧ w < st.play_suscept.length then Except.ok w
  else Except.error "node does not exist in this network"

/-- One scheduled seed event `(day, ward, num)` of the loop body of
`advance_additional` (`_advance_additional.py` lines 209-255), single
`Network` branch: on a day match, look up the node index; when the ward has
fewer play susceptibles than requested, emit a warning and do nothing else;
otherwise subtract `num` from `play_suscept[ward]` and add `num` to
`play_infections[0][ward]`. -/
def advance_additional_seed (day : ℤ) (st : SeedState) (sd : ℤ × ℕ × ℤ) :
    Except String SeedState :=
  if sd.1 = day then do
    let ward ← get_node_index st sd.2.1
    let num := sd.2.2
    if st.play_suscept.getD ward 0 < (num : ℚ) then
      Except.ok { st with warnings := st.warnings + 1 }
    else
      Except.ok { st with
        play_suscept := st.play_suscept.set ward (st.play_suscept.getD ward 0 - (num : ℚ)),
        play_infections0 := st.play_infections0.set ward
          (st.play_infections0.getD ward 0 + num) }
  else Except.ok st

/-- `advance_additional` (`_advance_additional.py` lines 208-257): apply
every loaded seed event in order for the current population day. -/
def advance_additional (day : ℤ) (seeds : List (ℤ × ℕ × ℤ)) (st : SeedState) :
    Except String SeedState :=
  seeds.foldlM (advance_additional_seed day) st

/-- The shared keyword bundle built by `get_functions`
(`_get_functions.py` lines 113-119): the stage string plus the remaining
keyword arguments (network, population, infections, rngs, nthreads,
profiler), abstracted as an opaque payload. -/
structure Kwargs (α : Type) where
  stage : String
  payload : α
deriving DecidableEq, Repr

/-- The six recognised stage names (`_get_functions.py` line 106). -/
def stages : List String :=
  ["initialise", "setup", "foi", "infect", "analyse", "finalise"]

/-- `get_functions` (`_get_functions.py` lines 106-124): reject an
unrecognised stage with `ValueError`, otherwise query the four plugins with
the shared keyword bundle, in the fixed order mover, iterator, mixer,
extractor, and concatenate their lists. -/
def get_functions {α β : Type} (stage : String) (payload : α)
    (mover iterator mixer extractor : Kwargs α → List β) : Except String (List β) :=
  if stage ∈ stages then
    let kw : Kwargs α := ⟨stage, payload⟩
    Except.ok (mover kw ++ iterator kw ++ mixer kw ++ extractor kw)
  else Except.error "ValueError: Cannot recognise the stage"

/-- The backwards prepend loop of `mix_custom` (`_mix_custom.py` lines
206-210): walk the core list from its last element to its first and insert
each element at the front of the custom list when the (evolving) custom
list does not already contain it. -/
def prependMissing {β : Type} [DecidableEq β] (core cs : List β) : List β :=
  core.foldr (fun f acc => if f ∈ acc then acc else f :: acc) cs

/-- `mix_custom` (`_mix_custom.py` lines 189-212), non-setup path, with the
list returned by `merge_core(**kwargs)` and the list returned by the custom
function as inputs (`none` models a Python `None` return).  The default
`merge_core` list itself lives in `_merge_core.py`, which is not available
in src, so it stays a parameter here. -/
def mix_custom {β : Type} [DecidableEq β] (core_funcs custom_funcs : Option (List β)) :
    List β :=
  match core_funcs with
  | none => custom_funcs.getD []
  | some core =>
    if core.isEmpty then custom_funcs.getD []
    else
      match custom_funcs with
      | none => core
      | some cs => if cs.isEmpty then core else prependMissing core cs

/-- The `Networks` dataclass (`_networks.py` lines 15-42): the overall
network, one subnet per demographic, and the demographics. -/
structure NetworksT (N D : Type) where
  overall : Option N
  subnets : List N
  demographics : Option (List D)
deriving DecidableEq, Repr

/-- `Networks.build` (`_networks.py` lines 71-116).  `Demographics` (file
`_demographics.py` is not available) is modelled from the spec as the
ordered list of demographics, and `network.specialise` (file `_network.py`
is not available) as an opaque function parameter. -/
def networks_build {N D : Type} (network : N) (specialise : N → D → N)
    (demographics : Option (List D)) : Except String (NetworksT N D) :=
  match demographics with
  | none =>
    Except.error "ValueError: You can only create a Networks object with a valid Demographics that contains more than one demographic"
  | some ds =>
    if ds.length < 2 then
      Except.error "ValueError: You can only create a Networks object with a valid Demographics that contains more than one demographic"
    else
      Except.ok { overall := some network,
                  subnets := ds.map (specialise network),
                  demographics := some ds }

/-- Sanity of a `Ward` as assumed by the serialisation round-trip claim:
positive id, all destination keys resolved to positive integer ids with no
duplicate keys, non-negative counts and weights, worker counts summing to
`num_workers`, player weights plus the residual `player_total` summing to
exactly 1, and a non-negative `num_players`. -/
structure SaneWard (w : Ward) : Prop where
  id_pos : ∃ i, w.id = some i ∧ 0 < i
  workers_keys : ∀ k ∈ wkeys w.workers, isPosIdKey k = true
  players_keys : ∀ k ∈ wkeys w.players, isPosIdKey k = true
  workers_nodup : (wkeys w.workers).Nodup
  players_nodup : (wkeys w.players).Nodup
  workers_nonneg : ∀ v ∈ wvals w.workers, 0 ≤ v
  players_nonneg : ∀ v ∈ wvals w.players, (0 : ℚ) ≤ v
  worker_sum : (wvals w.workers).sum = w.num_workers
  player_sum : (wvals w.players).sum + w.player_total = 1
  nplayers_nonneg : 0 ≤ w.num_players

/-- A concrete non-null `WardInfo` used by the `resolve` scenarios. -/
def infoA : WardInfo := ⟨"Clifton", "E05001980", "Bristol", "South West"⟩

/-- A ward with five workers commuting to ward 2; input for the
`subtract_workers` evaluation. -/
def wardC4 : Ward :=
  { id := some 1, info := WardInfo.null, workers := [(WKey.id 2, 5)], players := [],
    player_total := 1, num_workers := 5, num_players := 0, pos := WPos.null,
    auto_assign_players := true }

/-- A ward with half its player weight on ward 2; input for the
`subtract_player_weight` evaluation. -/
def wardC2 : Ward :=
  { id := some 1, info := WardInfo.null, workers := [],
    players := [(WKey.id 2, 1/2)], player_total := 1/2, num_workers := 0,
    num_players := 0, pos := WPos.null, auto_assign_players := true }

/-- A ward whose residual player weight is exactly zero; boundary input for
`add_player_weight`. -/
def wardC6c : Ward :=
  { id := some 1, info := WardInfo.null, workers := [],
    players := [(WKey.id 2, 1)], player_total := 0, num_workers := 0,
    num_players := 0, pos := WPos.null, auto_assign_players := true }

/-- A fresh ward with full residual player weight; witness input for
`add_player_weight`. -/
def wardC6w : Ward :=
  { id := some 1, info := WardInfo.null, workers := [], players := [],
    player_total := 1, num_workers := 0, num_players := 0, pos := WPos.null,
    auto_assign_players := true }

/-- A sane ward whose residual player weight is positive but smaller than
`1e-10`; input for the serialisation round trip. -/
def wardC5c : Ward :=
  { id := some 1, info := WardInfo.null, workers := [],
    players := [(WKey.id 2, 1 - 1/20000000000)], player_total := 1/20000000000,
    num_workers := 0, num_players := 0, pos := WPos.null,
    auto_assign_players := true }

/-- A sane ward with workers, players, a position and a comfortably large
residual; witness input for the serialisation round trip. -/
def wardC5w : Ward :=
  { id := some 1, info := infoA, workers := [(WKey.id 1, 3)],
    players := [(WKey.id 2, 1/2)], player_total := 1/2, num_workers := 3,
    num_players := 7, pos := WPos.xy 1 2, auto_assign_players := true }

/-- A resolved auto-assign ward whose whole player weight is explicitly on
ward 2, leaving a residual of exactly zero and no explicit self-play entry;
input for `get_player_lists`. -/
def wardC9c : Ward :=
  { id := some 1, info := WardInfo.null, workers := [],
    players := [(WKey.id 2, 1)], player_total := 0, num_workers := 0,
    num_players := 5, pos := WPos.null, auto_assign_players := true }

/-- A resolved auto-assign ward with a positive residual; witness input for
`get_player_lists`. -/
def wardC9w : Ward :=
  { id := some 3, info := WardInfo.null, workers := [],
    players := [(WKey.id 1, 1/4)], player_total := 3/4, num_workers := 0,
    num_players := 0, pos := WPos.null, auto_assign_players := true }

/-- A ward with a single unresolved worker destination; input for
`resolve` against an empty wards collection. -/
def wardC3c : Ward :=
  { id := some 1, info := WardInfo.null, workers := [(WKey.info infoA, 3)],
    players := [], player_total := 1, num_workers := 3, num_players := 0,
    pos := WPos.null, auto_assign_players := true }

/-- A ward whose unresolved worker destination collides with the existing
integer key 7 once resolved; input for `resolve`. -/
def wardC3w : Ward :=
  { id := some 1, info := WardInfo.null,
    workers := [(WKey.id 7, 1), (WKey.info infoA, 2)], players := [],
    player_total := 1, num_workers := 3, num_players := 0, pos := WPos.null,
    auto_assign_players := true }

/-- A small network seeding state: wards 1..3 with 4, 3 and 7 play
susceptibles and no play infections; index 0 is the sentinel slot. -/
def stC1 : SeedState :=
  { play_suscept := [0, 4, 3, 7], play_infections0 := [0, 0, 0, 0], warnings := 0 }

@[simp]
theorem wkeys_nil {β : Type} : wkeys ([] : WMap β) = [] := rfl

@[simp]
theorem wkeys_cons {β : Type} (kv : WKey × β) (m : WMap β) :
    wkeys (kv :: m) = kv.1 :: wkeys m := rfl

@[simp]
theorem wvals_nil {β : Type} : wvals ([] : WMap β) = [] := rfl

@[simp]
theorem wvals_cons {β : Type} (kv : WKey × β) (m : WMap β) :
    wvals (kv :: m) = kv.2 :: wvals m := rfl

theorem alookup_eq_none_iff {β : Type} (k : WKey) (m : WMap β) :
    alookup k m = none ↔ k ∉ wkeys m := by
  induction m with
  | nil => simp [alookup]
  | cons kv rest ih =>
    obtain ⟨k', v⟩ := kv
    by_cases h : k' = k
    · subst h
      simp [alookup]
    · simp only [alookup, if_neg h, wkeys_cons, List.mem_cons]
      rw [ih]
      constructor
      · intro hn hc
        rcases hc with hc | hc
        · exact h hc.symm
        · exact hn hc
      · intro hn hc
        exact hn (Or.inr hc)

theorem mem_wkeys_of_alookup {β : Type} {k : WKey} {m : WMap β} {v : β}
    (h : alookup k m = some v) : k ∈ wkeys m := by
  by_contra hc
  rw [← alookup_eq_none_iff] at hc
  rw [h] at hc
  exact Option.noConfusion hc

theorem alookup_isSome_iff {β : Type} (k : WKey) (m : WMap β) :
    (alookup k m).isSome = true ↔ k ∈ wkeys m := by
  constructor
  · intro h
    obtain ⟨v, hv⟩ := Option.isSome_iff_exists.mp h
    exact mem_wkeys_of_alookup hv
  · intro h
    cases hl : alookup k m with
    | none => exact absurd h ((alookup_eq_none_iff k m).mp hl)
    | some v => simp

theorem alookup_of_mem_nodup {β : Type} {k : WKey} {v : β} {m : WMap β}
    (hm : (k, v) ∈ m) (hnd : (wkeys m).Nodup) : alookup k m = some v := by
  induction m with
  | nil => cases hm
  | cons kv rest ih =>
    obtain ⟨k', v'⟩ := kv
    simp only [wkeys_cons, List.nodup_cons] at hnd
    rcases List.mem_cons.mp hm with h | h
    · cases h
      simp [alookup]
    · have hne : k' ≠ k := by
        intro he
        subst he
        exact hnd.1 (List.mem_map_of_mem Prod.fst h)
      simp only [alookup, if_neg hne]
      exact ih h hnd.2

theorem aset_of_not_mem {β : Type} {k : WKey} {m : WMap β} (v : β)
    (h : k ∉ wkeys m) : aset k v m = m ++ [(k, v)] := by
  induction m with
  | nil => rfl
  | cons kv rest ih =>
    obtain ⟨k', v'⟩ := kv
    simp only [wkeys_cons, List.mem_cons] at h
    push_neg at h
    have hne : ¬ (k' = k) := fun he => h.1 he.symm
    simp only [aset, if_neg hne, List.cons_append]
    rw [ih h.2]

theorem mem_wkeys_aset {β : Type} {k' : WKey} {m : WMap β} (k : WKey) (v : β)
    (h : k' ∈ wkeys m) : k' ∈ wkeys (aset k v m) := by
  induction m with
  | nil => cases h
  | cons kv rest ih =>
    obtain ⟨ka, va⟩ := kv
    by_cases he : ka = k
    · subst he
      simp only [aset, if_pos rfl, wkeys_cons]
      simpa using h
    · simp only [aset, if_neg he, wkeys_cons, List.mem_cons] at h ⊢
      rcases h with h | h
      · exact Or.inl h
      · exact Or.inr (ih h)

theorem mem_wkeys_aset_elim {β : Type} {k' k : WKey} {v : β} {m : WMap β}
    (h : k' ∈ wkeys (aset k v m)) : k' = k ∨ k' ∈ wkeys m := by
  induction m with
  | nil =>
    simp only [aset, wkeys_cons, wkeys_nil, List.mem_singleton] at h
    exact Or.inl h
  | cons kv rest ih =>
    obtain ⟨ka, va⟩ := kv
    by_cases he : ka = k
    · subst he
      simp only [aset, if_pos rfl, wkeys_cons] at h
      exact Or.inr h
    · simp only [aset, if_neg he, wkeys_cons, List.mem_cons] at h
      rcases h with h1 | h1
      · exact Or.inr (List.mem_cons.mpr (Or.inl h1))
      · rcases ih h1 with h2 | h2
        · exact Or.inl h2
        · exact Or.inr (List.mem_cons.mpr (Or.inr h2))

theorem mem_wkeys_aerase {β : Type} {k' k : WKey} {m : WMap β}
    (h : k' ∈ wkeys (aerase k m)) : k' ∈ wkeys m := by
  induction m with
  | nil => cases h
  | cons kv rest ih =>
    obtain ⟨ka, va⟩ := kv
    by_cases he : ka = k
    · subst he
      simp only [aerase, if_pos rfl] at h
      simp only [wkeys_cons, List.mem_cons]
      exact Or.inr h
    · simp only [aerase, if_neg he, wkeys_cons, List.mem_cons] at h ⊢
      rcases h with h | h
      · exact Or.inl h
      · exact Or.inr (ih h)

theorem mem_wkeys_aerase_of_ne {β : Type} {k' k : WKey} {m : WMap β}
    (hne : k' ≠ k) (h : k' ∈ wkeys m) : k' ∈ wkeys (aerase k m) := by
  induction m with
  | nil => cases h
  | cons kv rest ih =>
    obtain ⟨ka, va⟩ := kv
    simp only [wkeys_cons, List.mem_cons] at h
    by_cases he : ka = k
    · subst he
      simp only [aerase, if_pos rfl]
      rcases h with h | h
      · exact absurd h.symm (fun hh => hne hh.symm)
      · exact h
    · simp only [aerase, if_neg he, wkeys_cons, List.mem_cons]
      rcases h with h | h
      · exact Or.inl h
      · exact Or.inr (ih h)

theorem not_mem_wkeys_aerase_self {β : Type} {k : WKey} {m : WMap β}
    (hnd : (wkeys m).Nodup) : k ∉ wkeys (aerase k m) := by
  induction m with
  | nil => simp [aerase]
  | cons kv rest ih =>
    obtain ⟨ka, va⟩ := kv
    simp only [wkeys_cons, List.nodup_cons] at hnd
    by_cases he : ka = k
    · subst he
      simp only [aerase, if_pos rfl]
      intro hmem
      exact hnd.1 hmem
    · simp only [aerase, if_neg he, wkeys_cons, List.mem_cons]
      intro hmem
      rcases hmem with h | h
      · exact he h.symm
      · exact ih hnd.2 h

theorem nodup_wkeys_aerase {β : Type} (k : WKey) {m : WMap β}
    (hnd : (wkeys m).Nodup) : (wkeys (aerase k m)).Nodup := by
  induction m with
  | nil => simp [aerase]
  | cons kv rest ih =>
    obtain ⟨ka, va⟩ := kv
    simp only [wkeys_cons, List.nodup_cons] at hnd
    by_cases he : ka = k
    · subst he
      simpa [aerase] using hnd.2
    · simp only [aerase, if_neg he, wkeys_cons, List.nodup_cons]
      exact ⟨fun hmem => hnd.1 (mem_wkeys_aerase hmem), ih hnd.2⟩

theorem nodup_wkeys_aset_of_not_mem {β : Type} {k : WKey} {m : WMap β} (v : β)
    (hk : k ∉ wkeys m) (hnd : (wkeys m).Nodup) : (wkeys (aset k v m)).Nodup := by
  rw [aset_of_not_mem v hk]
  simp only [wkeys, List.map_append]
  rw [List.nodup_append]
  refine ⟨hnd, List.nodup_singleton _, ?_⟩
  intro a ha hb
  simp only [List.map_cons, List.map_nil, List.mem_singleton] at hb
  subst hb
  exact hk ha

@[simp]
theorem idsOf_nil : idsOf [] = [] := rfl

@[simp]
theorem idsOf_cons_id (n : ℤ) (ks : List WKey) :
    idsOf (WKey.id n :: ks) = n :: idsOf ks := by
  simp [idsOf, List.filterMap_cons]

@[simp]
theorem idsOf_cons_info (i : WardInfo) (ks : List WKey) :
    idsOf (WKey.info i :: ks) = idsOf ks := by
  simp [idsOf, List.filterMap_cons]

theorem keysToInts_ok {ks : List WKey} (h : ∀ k ∈ ks, ∃ n, k = WKey.id n) :
    keysToInts ks = Except.ok (idsOf ks) := by
  induction ks with
  | nil => rfl
  | cons k rest ih =>
    obtain ⟨n, hn⟩ := h k (List.mem_cons_self k rest)
    subst hn
    have hrest : keysToInts rest = Except.ok (idsOf rest) :=
      ih (fun k hk => h k (List.mem_cons_of_mem _ hk))
    simp [keysToInts, idsOf, hrest, List.filterMap_cons, Except.bind, bind]

theorem idsOf_map_id {ks : List WKey} (h : ∀ k ∈ ks, ∃ n, k = WKey.id n) :
    (idsOf ks).map WKey.id = ks := by
  induction ks with
  | nil => rfl
  | cons k rest ih =>
    obtain ⟨n, hn⟩ := h k (List.mem_cons_self k rest)
    subst hn
    have hrest := ih (fun k hk => h k (List.mem_cons_of_mem _ hk))
    simp only [idsOf_cons_id, List.map_cons, hrest]

theorem mem_idsOf {n : ℤ} {ks : List WKey} (h : WKey.id n ∈ ks) : n ∈ idsOf ks := by
  induction ks with
  | nil => cases h
  | cons k rest ih =>
    rcases List.mem_cons.mp h with h1 | h1
    · subst h1
      simp [idsOf, List.filterMap_cons]
    · cases k with
      | id m => simp only [idsOf, List.filterMap_cons] at ih ⊢; exact List.mem_cons_of_mem _ (ih h1)
      | info i => simpa [idsOf, List.filterMap_cons] using ih h1

theorem idsOf_mem {n : ℤ} {ks : List WKey} (h : n ∈ idsOf ks) : WKey.id n ∈ ks := by
  induction ks with
  | nil => cases h
  | cons k rest ih =>
    cases k with
    | id m =>
      simp only [idsOf, List.filterMap_cons] at h
      rcases List.mem_cons.mp h with h1 | h1
      · subst h1; exact List.mem_cons_self _ _
      · exact List.mem_cons_of_mem _ (ih h1)
    | info i =>
      simp only [idsOf, List.filterMap_cons] at h
      exact List.mem_cons_of_mem _ (ih h)

theorem nodup_idsOf {ks : List WKey} (hnd : ks.Nodup) : (idsOf ks).Nodup := by
  induction ks with
  | nil => simp [idsOf]
  | cons k rest ih =>
    rw [List.nodup_cons] at hnd
    cases k with
    | id m =>
      simp only [idsOf, List.filterMap_cons, List.nodup_cons]
      exact ⟨fun hmem => hnd.1 (idsOf_mem hmem), ih hnd.2⟩
    | info i =>
      simpa [idsOf, List.filterMap_cons] using ih hnd.2

theorem insertWorkerEntries_ok (entries : List (ℤ × ℤ)) (m : WMap ℤ)
    (hpos : ∀ e ∈ entries, 0 < e.1) (hnn : ∀ e ∈ entries, 0 ≤ e.2)
    (hfresh : ∀ e ∈ entries, WKey.id e.1 ∉ wkeys m)
    (hnd : (entries.map Prod.fst).Nodup) :
    insertWorkerEntries entries m =
      Except.ok (m ++ entries.map (fun e => (WKey.id e.1, e.2))) := by
  induction entries generalizing m with
  | nil => simp [insertWorkerEntries]
  | cons e rest ih =>
    obtain ⟨d, p⟩ := e
    have hd : 0 < d := hpos (d, p) (List.mem_cons_self _ _)
    have hp : 0 ≤ p := hnn (d, p) (List.mem_cons_self _ _)
    have hdv : asPositiveInteger d false = Except.ok d := by
      simp only [asPositiveInteger]
      rw [if_neg (by omega), if_neg (by rintro ⟨-, h⟩; omega)]
    have hpv : asPositiveInteger p true = Except.ok p := by
      simp only [asPositiveInteger]
      rw [if_neg (by omega), if_neg (by rintro ⟨h, -⟩; exact Bool.noConfusion h)]
    simp only [List.map_cons, List.nodup_cons] at hnd
    have hset : aset (WKey.id d) p m = m ++ [(WKey.id d, p)] :=
      aset_of_not_mem p (hfresh (d, p) (List.mem_cons_self _ _))
    have hih := ih (m ++ [(WKey.id d, p)])
      (fun e he => hpos e (List.mem_cons_of_mem _ he))
      (fun e he => hnn e (List.mem_cons_of_mem _ he))
      (by
        intro e he
        simp only [wkeys, List.map_append, List.mem_append, List.map_cons, List.map_nil,
          List.mem_singleton]
        rintro (hc | hc)
        · exact hfresh e (List.mem_cons_of_mem _ he) hc
        · have : e.1 = d := by
            injection hc
          exact hnd.1 (this ▸ List.mem_map_of_mem Prod.fst he))
      hnd.2
    simp only [insertWorkerEntries, hdv, hpv, Except.bind, bind, hset, hih,
      List.map_cons, List.append_assoc, List.singleton_append]

theorem insertPlayerEntries_ok (entries : List (ℤ × ℚ)) (m : WMap ℚ)
    (hpos : ∀ e ∈ entries, 0 < e.1) (hnn : ∀ e ∈ entries, 0 ≤ e.2)
    (hfresh : ∀ e ∈ entries, WKey.id e.1 ∉ wkeys m)
    (hnd : (entries.map Prod.fst).Nodup) :
    insertPlayerEntries entries m =
      Except.ok (m ++ entries.map (fun e => (WKey.id e.1, e.2))) := by
  induction entries generalizing m with
  | nil => simp [insertPlayerEntries]
  | cons e rest ih =>
    obtain ⟨d, q⟩ := e
    have hd : 0 < d := hpos (d, q) (List.mem_cons_self _ _)
    have hq : 0 ≤ q := hnn (d, q) (List.mem_cons_self _ _)
    have hdv : asPositiveInteger d false = Except.ok d := by
      simp only [asPositiveInteger]
      rw [if_neg (by omega), if_neg (by rintro ⟨-, h⟩; omega)]
    have hqv : asPositiveFloat q = Except.ok q := by
      simp only [asPositiveFloat]
      rw [if_neg (by exact not_lt.mpr hq)]
    simp only [List.map_cons, List.nodup_cons] at hnd
    have hset : aset (WKey.id d) q m = m ++ [(WKey.id d, q)] :=
      aset_of_not_mem q (hfresh (d, q) (List.mem_cons_self _ _))
    have hih := ih (m ++ [(WKey.id d, q)])
      (fun e he => hpos e (List.mem_cons_of_mem _ he))
      (fun e he => hnn e (List.mem_cons_of_mem _ he))
      (by
        intro e he
        simp only [wkeys, List.map_append, List.mem_append, List.map_cons, List.map_nil,
          List.mem_singleton]
        rintro (hc | hc)
        · exact hfresh e (List.mem_cons_of_mem _ he) hc
        · have : e.1 = d := by
            injection hc
          exact hnd.1 (this ▸ List.mem_map_of_mem Prod.fst he))
      hnd.2
    simp only [insertPlayerEntries, hdv, hqv, Except.bind, bind, hset, hih,
      List.map_cons, List.append_assoc, List.singleton_append]

theorem alookup_pairs_of_mem {β : Type} {ss : List ℤ} {g : ℤ → β} {n : ℤ}
    (hnd : ss.Nodup) (h : n ∈ ss) :
    alookup (WKey.id n) (ss.map (fun s => (WKey.id s, g s))) = some (g n) := by
  induction ss with
  | nil => cases h
  | cons s rest ih =>
    rw [List.nodup_cons] at hnd
    rcases List.mem_cons.mp h with h1 | h1
    · subst h1
      simp [alookup]
    · have hne : WKey.id s ≠ WKey.id n := by
        intro he
        injection he with he
        subst he
        exact hnd.1 h1
      simp only [List.map_cons, alookup, if_neg hne]
      exact ih hnd.2 h1

theorem alookup_pairs_of_not_mem {β : Type} {ss : List ℤ} {g : ℤ → β} {n : ℤ}
    (h : n ∉ ss) :
    alookup (WKey.id n) (ss.map (fun s => (WKey.id s, g s))) = none := by
  rw [alookup_eq_none_iff]
  intro hmem
  simp only [wkeys, List.map_map] at hmem
  obtain ⟨s, hs, he⟩ := List.mem_map.mp hmem
  simp only [Function.comp] at he
  injection he with he
  exact h (he ▸ hs)

theorem alookup_pairs_info {β : Type} (ss : List ℤ) (g : ℤ → β) (i : WardInfo) :
    alookup (WKey.info i) (ss.map (fun s => (WKey.id s, g s))) = none := by
  rw [alookup_eq_none_iff]
  intro hmem
  simp only [wkeys, List.map_map] at hmem
  obtain ⟨s, hs, he⟩ := List.mem_map.mp hmem
  simp only [Function.comp] at he
  exact WKey.noConfusion he

theorem map_getD_eq_wvals {β : Type} {m : WMap β} (dflt : β)
    (hall : ∀ k ∈ wkeys m, ∃ n, k = WKey.id n) (hnd : (wkeys m).Nodup) :
    (idsOf (wkeys m)).map (fun s => (alookup (WKey.id s) m).getD dflt) = wvals m := by
  induction m with
  | nil => rfl
  | cons kv rest ih =>
    obtain ⟨k, v⟩ := kv
    obtain ⟨n, hn⟩ := hall k (by simp)
    subst hn
    simp only [wkeys_cons, List.nodup_cons] at hnd
    simp only [wkeys_cons, idsOf_cons_id, List.map_cons, wvals_cons]
    refine List.cons_eq_cons.mpr ⟨?_, ?_⟩
    · simp [alookup]
    · have hmap : ∀ s ∈ idsOf (wkeys rest),
          (alookup (WKey.id s) ((WKey.id n, v) :: rest)).getD dflt =
            (alookup (WKey.id s) rest).getD dflt := by
        intro s hs
        have hns : n ≠ s := by
          intro he
          exact hnd.1 (he ▸ idsOf_mem hs)
        simp [alookup, hns]
      rw [List.map_congr_left hmap]
      exact ih (fun k hk => hall k (List.mem_cons_of_mem _ hk)) hnd.2

theorem resolveMap_keys {β : Type} {ws : WardsLookup} {ks : List WKey} {m m' : WMap β}
    (h : resolveMap ws ks m = Except.ok m') :
    ∀ k ∈ wkeys m', k ∈ wkeys m ∨ ∃ n, k = WKey.id n := by
  induction ks generalizing m with
  | nil =>
    simp only [resolveMap] at h
    cases h
    exact fun k hk => Or.inl hk
  | cons k0 rest ih =>
    cases k0 with
    | id n0 =>
      simp only [resolveMap] at h
      exact ih h
    | info i0 =>
      simp only [resolveMap] at h
      cases hl : lookupWard ws i0 with
      | none =>
        rw [hl] at h
        simp only [] at h
        exact ih h
      | some idx =>
        rw [hl] at h
        simp only [] at h
        by_cases hs : (alookup (WKey.id idx) m).isSome
        · rw [if_pos hs] at h
          exact Except.noConfusion h
        · rw [if_neg hs] at h
          cases ha : alookup (WKey.info i0) m with
          | none =>
            rw [ha] at h
            simp only [] at h
            exact ih h
          | some v =>
            rw [ha] at h
            simp only [] at h
            intro k hk
            rcases ih h k hk with hin | hid
            · have h1 := mem_wkeys_aerase hin
              rcases mem_wkeys_aset_elim h1 with he | hm2
              · exact Or.inr ⟨idx, he⟩
              · exact Or.inl hm2
            · exact Or.inr hid

theorem resolveMap_resolves {β : Type} {ws : WardsLookup} {ks : List WKey} {m m' : WMap β}
    (hnd : (wkeys m).Nodup) (h : resolveMap ws ks m = Except.ok m') :
    ∀ i, WKey.info i ∈ ks → WKey.info i ∈ wkeys m' → lookupWard ws i = none := by
  induction ks generalizing m with
  | nil =>
    intro i hik
    cases hik
  | cons k0 rest ih =>
    intro i hik him'
    cases k0 with
    | id n0 =>
      simp only [resolveMap] at h
      rcases List.mem_cons.mp hik with h1 | h1
      · exact WKey.noConfusion h1
      · exact ih hnd h i h1 him'
    | info i0 =>
      simp only [resolveMap] at h
      cases hl : lookupWard ws i0 with
      | none =>
        rw [hl] at h
        simp only [] at h
        rcases List.mem_cons.mp hik with h1 | h1
        · injection h1 with h1
          subst h1
          exact hl
        · exact ih hnd h i h1 him'
      | some idx =>
        rw [hl] at h
        simp only [] at h
        by_cases hs : (alookup (WKey.id idx) m).isSome
        · rw [if_pos hs] at h
          exact Except.noConfusion h
        · rw [if_neg hs] at h
          cases ha : alookup (WKey.info i0) m with
          | none =>
            rw [ha] at h
            simp only [] at h
            rcases List.mem_cons.mp hik with h1 | h1
            · injection h1 with h1
              subst h1
              rcases resolveMap_keys h _ him' with hin | hid
              · exact absurd hin ((alookup_eq_none_iff _ _).mp ha)
              · obtain ⟨n, hn⟩ := hid
                exact WKey.noConfusion hn
            · exact ih hnd h i h1 him'
          | some v =>
            rw [ha] at h
            simp only [] at h
            have hfresh : WKey.id idx ∉ wkeys m := by
              intro hc
              rw [← alookup_isSome_iff] at hc
              exact hs hc
            have hnd1 : (wkeys (aset (WKey.id idx) v m)).Nodup :=
              nodup_wkeys_aset_of_not_mem v hfresh hnd
            have hndm1 : (wkeys (aerase (WKey.info i0) (aset (WKey.id idx) v m))).Nodup :=
              nodup_wkeys_aerase _ hnd1
            rcases List.mem_cons.mp hik with h1 | h1
            · injection h1 with h1
              subst h1
              rcases resolveMap_keys h _ him' with hin | hid
              · exact absurd hin (not_mem_wkeys_aerase_self hnd1)
              · obtain ⟨n, hn⟩ := hid
                exact WKey.noConfusion hn
            · exact ih hndm1 h i h1 him'

theorem resolveMap_collision {β : Type} {ws : WardsLookup} {ks : List WKey} {m : WMap β}
    {i : WardInfo} {idx : ℤ}
    (hk : WKey.info i ∈ ks) (hl : lookupWard ws i = some idx)
    (hm : WKey.id idx ∈ wkeys m) :
    exceptIsOk (resolveMap ws ks m) = false := by
  induction ks generalizing m with
  | nil => cases hk
  | cons k0 rest ih =>
    cases k0 with
    | id n0 =>
      simp only [resolveMap]
      rcases List.mem_cons.mp hk with h1 | h1
      · exact WKey.noConfusion h1
      · exact ih h1 hm
    | info i0 =>
      rcases List.mem_cons.mp hk with h1 | h1
      · injection h1 with h1
        subst h1
        simp only [resolveMap, hl, if_pos ((alookup_isSome_iff _ _).mpr hm)]
        rfl
      · simp only [resolveMap]
        cases hl0 : lookupWard ws i0 with
        | none =>
          simp only []
          exact ih h1 hm
        | some idx0 =>
          simp only []
          by_cases hs : (alookup (WKey.id idx0) m).isSome
          · rw [if_pos hs]
            rfl
          · rw [if_neg hs]
            cases ha : alookup (WKey.info i0) m with
            | none =>
              simp only []
              exact ih h1 hm
            | some v =>
              simp only []
              apply ih h1
              apply mem_wkeys_aerase_of_ne (fun hc => WKey.noConfusion hc)
              exact mem_wkeys_aset _ _ hm

theorem prependMissing_eq {β : Type} [DecidableEq β] {core : List β} (cs : List β)
    (hnd : core.Nodup) :
    prependMissing core cs = core.filter (fun f => decide (f ∉ cs)) ++ cs := by
  induction core with
  | nil => rfl
  | cons f rest ih =>
    rw [List.nodup_cons] at hnd
    have hrest := ih hnd.2
    simp only [prependMissing, List.foldr_cons] at hrest ⊢
    rw [hrest]
    by_cases hf : f ∈ cs
    · rw [if_pos (List.mem_append.mpr (Or.inr hf))]
      rw [List.filter_cons_of_neg (by simpa using hf)]
    · have hfn : f ∉ rest.filter (fun f => decide (f ∉ cs)) ++ cs := by
        intro hc
        rcases List.mem_append.mp hc with hc | hc
        · exact hnd.1 (List.mem_of_mem_filter hc)
        · exact hf hc
      rw [if_neg hfn, List.filter_cons_of_pos (by simpa using hf), List.cons_append]

theorem isPosIdKey_elim {k : WKey} (h : isPosIdKey k = true) :
    ∃ n, 0 < n ∧ k = WKey.id n := by
  cases k with
  | id n => exact ⟨n, by simpa [isPosIdKey] using h, rfl⟩
  | info i => simp [isPosIdKey] at h

theorem alookup_mem_wvals {β : Type} {k : WKey} {v : β} {m : WMap β}
    (h : alookup k m = some v) : v ∈ wvals m := by
  induction m with
  | nil => simp [alookup] at h
  | cons kv rest ih =>
    obtain ⟨k', v'⟩ := kv
    by_cases he : k' = k
    · subst he
      simp only [alookup, eq_self_iff_true, if_true, Option.some.injEq] at h
      subst h
      simp
    · simp only [alookup, if_neg he] at h
      simp only [wvals_cons, List.mem_cons]
      exact Or.inr (ih h)

theorem zip_self_map {α β : Type} (l : List α) (g : α → β) :
    l.zip (l.map g) = l.map (fun a => (a, g a)) := by
  induction l with
  | nil => rfl
  | cons a rest ih => simp [List.zip_cons_cons, ih]

theorem dictBeq_of_forall {β : Type} [DecidableEq β] {a b : WMap β}
    (h : ∀ k, alookup k a = alookup k b)
    (hna : (wkeys a).Nodup) (hnb : (wkeys b).Nodup) : dictBeq a b = true := by
  simp only [dictBeq, Bool.and_eq_true, List.all_eq_true]
  constructor
  · intro kv hkv
    have h1 : alookup kv.1 a = some kv.2 := alookup_of_mem_nodup hkv hna
    rw [h] at h1
    simp [h1]
  · intro kv hkv
    have h1 : alookup kv.1 b = some kv.2 := alookup_of_mem_nodup hkv hnb
    rw [← h] at h1
    simp [h1]

theorem alookup_sorted_reconstruction {β : Type} (dflt : β) {m : WMap β}
    (hall : ∀ k ∈ wkeys m, ∃ n, k = WKey.id n) (hnd : (wkeys m).Nodup)
    {ss : List ℤ} (hperm : ss.Perm (idsOf (wkeys m))) (k : WKey) :
    alookup k (ss.map (fun s => (WKey.id s, (alookup (WKey.id s) m).getD dflt))) =
      alookup k m := by
  have hssnd : ss.Nodup := (List.Perm.nodup_iff hperm).mpr (nodup_idsOf hnd)
  cases k with
  | info i =>
    rw [alookup_pairs_info]
    rw [eq_comm, alookup_eq_none_iff]
    intro hc
    obtain ⟨n, hn⟩ := hall _ hc
    exact WKey.noConfusion hn
  | id n =>
    by_cases hmem : n ∈ ss
    · rw [alookup_pairs_of_mem hssnd hmem]
      have hkm : WKey.id n ∈ wkeys m := idsOf_mem (hperm.mem_iff.mp hmem)
      obtain ⟨v, hv⟩ := Option.isSome_iff_exists.mp ((alookup_isSome_iff _ _).mpr hkm)
      rw [hv]
      simp
    · rw [alookup_pairs_of_not_mem hmem, eq_comm, alookup_eq_none_iff]
      intro hc
      exact hmem (hperm.mem_iff.mpr (mem_idsOf hc))

theorem nodup_wkeys_pairs {β : Type} {ss : List ℤ} (g : ℤ → β) (hnd : ss.Nodup) :
    (wkeys (ss.map (fun s => (WKey.id s, g s)))).Nodup := by
  simp only [wkeys, List.map_map]
  have : (Prod.fst ∘ fun s => (WKey.id s, g s)) = fun s => WKey.id s := by
    funext s
    rfl
  rw [this]
  exact hnd.map (fun a b he => by injection he)

@[simp]
theorem idsOf_append (a b : List WKey) : idsOf (a ++ b) = idsOf a ++ idsOf b := by
  simp [idsOf, List.filterMap_append]

/-- Claim C4 (code bug): `subtract_workers(n, dest)` leaves the ward
unchanged when `dest` is absent, removes the entry and decreases
`num_workers` by the removed count when `n >= workers[dest]`, but in the
remaining case `0 < n < workers[dest]` the source line
`self._workers -= number` applies `-=` to the dict itself, so instead of
decreasing `workers[dest]` and `num_workers` by `n` without error the call
raises `TypeError`.  Evaluated here at a ward whose workers map sends
destination 2 to count 5: subtracting 3 raises, while the
absent-destination and drain branches behave as the claim states. -/
theorem subtract_workers_bug_eval :
    Ward.subtract_workers wardC4 3 (some (WKey.id 2)) =
        Except.error "TypeError: unsupported operand types for -= on dict and int" ∧
    Ward.subtract_workers wardC4 5 (some (WKey.id 2)) =
        Except.ok { wardC4 with workers := [], num_workers := 0 } ∧
    Ward.subtract_workers wardC4 3 (some (WKey.id 9)) = Except.ok wardC4 := by
  refine ⟨?_, ?_, ?_⟩ <;> decide

/-- Claim C2 (code bug): `subtract_player_weight(w, dest)` deletes the whole
`players[dest]` entry even when the capped weight is strictly smaller than
the stored weight, returning only `w` to `player_total`; the remaining
weight is lost and the documented invariant
`|sum(players.values()) + player_total - 1| <= 1e-10` is broken, which the
class's own `assert_sane` then rejects.  Evaluated at a ward with
`players[2] = 0.5`, `player_total = 0.5`, subtracting `0.2`: the invariant
holds before the call, the call deletes the entry leaving
`player_total = 0.7` and total weight `0.7`, and `assert_sane` fails on the
result. -/
theorem subtract_player_weight_bug_eval :
    qabs ((wvals wardC2.players).sum + wardC2.player_total - 1) ≤ tiny ∧
    Ward.subtract_player_weight wardC2 (1/5) (some (WKey.id 2)) =
      Except.ok { wardC2 with players := [], player_total := 7/10 } ∧
    qabs ((wvals ([] : WMap ℚ)).sum + (7/10 : ℚ) - 1) > tiny ∧
    Ward.assert_sane { wardC2 with players := [], player_total := 7/10 } =
      Except.error "Player sum should equal 1.0" := by
  refine ⟨?_, ?_, ?_, ?_⟩
  · norm_num [wardC2, wvals, qabs, tiny]
  · norm_num [Ward.subtract_player_weight, asPositiveFloat, resolveDestination,
      asPositiveInteger, tiny, qabs, alookup, aerase, Except.bind, bind, wardC2]
  · norm_num [wvals, qabs, tiny]
  · norm_num [Ward.assert_sane, wardC2, wvals, qabs]

/-- Claim C7 (confirmed): for each of the six recognised stage strings,
`get_functions` returns exactly the concatenation of the four plugin lists
queried in the fixed order mover, iterator, mixer, extractor, each called
with the same shared keyword bundle; any other stage string raises
`ValueError`. -/
theorem get_functions_spec {α β : Type} (stage : String) (payload : α)
    (mover iterator mixer extractor : Kwargs α → List β) :
    (stage ∈ stages →
      get_functions stage payload mover iterator mixer extractor =
        Except.ok (mover ⟨stage, payload⟩ ++ iterator ⟨stage, payload⟩ ++
          mixer ⟨stage, payload⟩ ++ extractor ⟨stage, payload⟩)) ∧
    (stage ∉ stages →
      get_functions stage payload mover iterator mixer extractor =
        Except.error "ValueError: Cannot recognise the stage") := by
  constructor
  · intro h
    simp [get_functions, h]
  · intro h
    simp [get_functions, h]

/-- Witness for C7: at stage `"foi"` and four concrete plugins the result
is the ordered concatenation of their lists. -/
theorem get_functions_spec_witness :
    get_functions "foi" (0 : ℤ) (fun _ => [1]) (fun _ => [2, 3]) (fun _ => [4])
        (fun _ => [(5 : ℤ)]) = Except.ok [1, 2, 3, 4, 5] :=
  ((get_functions_spec "foi" (0 : ℤ) (fun _ => [1]) (fun _ => [2, 3]) (fun _ => [4])
      (fun _ => [(5 : ℤ)])).1 (by simp [stages])).trans rfl

/-- Claim C8 (confirmed): in the non-setup path, when the custom mixer
function returns a list, every function of the (duplicate-free) core
`merge_core` list that the custom list does not already contain is
prepended to the front of the custom list preserving the core order, so
the result is exactly the missing core functions followed by the custom
list. -/
theorem mix_custom_prepends_missing {β : Type} [DecidableEq β] (core cs : List β)
    (hnd : core.Nodup) :
    mix_custom (some core) (some cs) =
      core.filter (fun f => decide (f ∉ cs)) ++ cs := by
  rcases core with _ | ⟨c, core'⟩
  · simp [mix_custom]
  · rcases cs with _ | ⟨d, cs'⟩
    · simp [mix_custom, List.filter_eq_self]
    · simp only [mix_custom, List.isEmpty_cons, Bool.false_eq_true, if_false]
      exact prependMissing_eq _ hnd

/-- Witness for C8: core `[1, 2]` against custom `[2, 5]` yields
`[1, 2, 5]` - the missing core function 1 is prepended, the shared 2 is
not duplicated. -/
theorem mix_custom_prepends_missing_witness :
    mix_custom (some [1, 2]) (some [2, 5]) = [(1 : ℤ), 2, 5] :=
  (mix_custom_prepends_missing [1, 2] [2, 5] (by decide)).trans (by decide)

/-- Claim C10 (confirmed): `Networks.build` raises `ValueError` whenever
the demographics are missing or contain fewer than two entries, and on
success returns a `Networks` whose `overall` is the passed network with one
specialised subnet per demographic in demographic order. -/
theorem networks_build_spec {N D : Type} (network : N) (specialise : N → D → N)
    (demographics : Option (List D)) :
    ((demographics = none ∨ ∃ ds, demographics = some ds ∧ ds.length < 2) →
      exceptIsOk (networks_build network specialise demographics) = false) ∧
    (∀ ds, demographics = some ds → 2 ≤ ds.length →
      networks_build network specialise demographics =
        Except.ok { overall := some network, subnets := ds.map (specialise network),
                    demographics := some ds }) := by
  constructor
  · rintro (rfl | ⟨ds, rfl, hlen⟩)
    · rfl
    · simp [networks_build, if_pos hlen, exceptIsOk]
  · rintro ds rfl hlen
    simp [networks_build, Nat.not_lt.mpr hlen]

/-- Witness for C10: two demographics build a `Networks` with the overall
network kept and the two specialised subnets in order. -/
theorem networks_build_spec_witness :
    networks_build (1 : ℤ) (fun n d => n + d) (some [10, 20]) =
      Except.ok { overall := some 1, subnets := [11, 21],
                  demographics := some [(10 : ℤ), 20] } :=
  ((networks_build_spec (1 : ℤ) (fun n d => n + d) (some [10, 20])).2 [10, 20] rfl
    (by norm_num)).trans (by decide)

/-- Counterexample to C1: a seed event requesting 5 infections on day 10 in
ward 2, which has only 3 play susceptibles, is skipped entirely - only the
warning counter changes, `play_suscept` and `play_infections[0]` are left
untouched - rather than being capped at the 3 available susceptibles as the
claim states. -/
theorem advance_additional_shortfall_counterexample :
    advance_additional 10 [(10, 2, 5)] stC1 = Except.ok { stC1 with warnings := 1 } ∧
    stC1.play_suscept.getD 2 0 = 3 ∧ ¬ ((5 : ℚ) ≤ 3) := by
  refine ⟨?_, ?_, ?_⟩
  · norm_num [advance_additional, advance_additional_seed, get_node_index, stC1,
      List.foldlM, Except.bind, bind, pure, Except.pure]
  · norm_num [stC1]
  · norm_num

/-- Claim C1 (amended): for a scheduled seed event on a valid ward index,
`advance_additional` leaves the state unchanged when the day does not
match; on a matching day with at least `num` play susceptibles it
decrements `play_suscept[ward]` and increments `play_infections[0][ward]`
by exactly `num`; on a matching day with fewer than `num` susceptibles it
logs a warning and skips the event entirely (no partial seeding, no
underflow, no abort). -/
theorem advance_additional_spec (day d : ℤ) (ward : ℕ) (num : ℤ) (st : SeedState)
    (hw : 1 ≤ ward ∧ ward < st.play_suscept.length) :
    (d ≠ day → advance_additional day [(d, ward, num)] st = Except.ok st) ∧
    ((num : ℚ) ≤ st.play_suscept.getD ward 0 →
      advance_additional day [(day, ward, num)] st = Except.ok { st with
        play_suscept := st.play_suscept.set ward (st.play_suscept.getD ward 0 - (num : ℚ)),
        play_infections0 := st.play_infections0.set ward
          (st.play_infections0.getD ward 0 + num) }) ∧
    (st.play_suscept.getD ward 0 < (num : ℚ) →
      advance_additional day [(day, ward, num)] st =
        Except.ok { st with warnings := st.warnings + 1 }) := by
  have hsingle : ∀ x : ℤ × ℕ × ℤ,
      advance_additional day [x] st = advance_additional_seed day st x := by
    intro x
    simp only [advance_additional, List.foldlM]
    cases advance_additional_seed day st x <;> rfl
  have hnode : get_node_index st ward = Except.ok ward := by
    simp only [get_node_index, if_pos hw]
  refine ⟨?_, ?_, ?_⟩
  · intro hne
    rw [hsingle]
    simp only [advance_additional_seed, if_neg hne]
  · intro hle
    rw [hsingle]
    simp only [advance_additional_seed, if_pos rfl, hnode, Except.bind, bind]
    rw [if_neg (not_lt.mpr hle)]
    simp
  · intro hlt
    rw [hsingle]
    simp only [advance_additional_seed, if_pos rfl, hnode, Except.bind, bind]
    rw [if_pos hlt]
    simp

/-- Witness for C1: seeding 4 infections on a matching day in ward 1, which
has exactly 4 play susceptibles, moves all 4 from `play_suscept` to
`play_infections[0]`. -/
theorem advance_additional_spec_witness :
    advance_additional 3 [(3, 1, 4)] stC1 =
      Except.ok
        { play_suscept := [0, 0, 3, 7], play_infections0 := [0, 4, 0, 0],
          warnings := 0 } :=
  ((advance_additional_spec 3 3 1 4 stC1 (by norm_num [stC1])).2.1
    (by norm_num [stC1])).trans (by norm_num [stC1])

/-- Counterexample to C6: with a residual `player_total` of exactly 0,
adding the weight `1e-10` raises, although `1e-10` does not exceed the
residual by more than `1e-10`; the error condition of the source is
`w >= player_total + 1e-10`, not `w > player_total + 1e-10` as the claim
states. -/
theorem add_player_weight_boundary_counterexample :
    exceptIsOk (Ward.add_player_weight wardC6c tiny (some (WKey.id 3))) = false ∧
    ¬ (tiny > wardC6c.player_total + tiny) := by
  constructor
  · norm_num [Ward.add_player_weight, asPositiveFloat, resolveDestination,
      asPositiveInteger, tiny, qabs, exceptIsOk, Except.bind, bind, wardC6c]
  · norm_num [wardC6c]

theorem le_qabs (x : ℚ) : x ≤ qabs x := by
  simp only [qabs]
  split_ifs with h
  · linarith
  · linarith

theorem qabs_nonneg (x : ℚ) : 0 ≤ qabs x := by
  simp only [qabs]
  split_ifs with h
  · linarith
  · linarith

/-- Claim C6 (amended): for a non-negative weight `w`, a positive integer
destination and a non-negative residual, `add_player_weight` is a no-op
when `w < 1e-10`; it raises exactly when `w >= player_total + 1e-10`
(equivalently, when `w` exceeds the residual by at least `1e-10`); when it
succeeds with `1e-10 <= w`, the weight actually added is `w` snapped to
`player_total` whenever `|w - player_total| < 1e-10` (strictly within
tolerance), `players[dest]` increases by that snapped weight,
`player_total` decreases by the same amount, and a resulting residual
strictly below `1e-10` is clamped to exactly 0. -/
theorem add_player_weight_spec (w : Ward) (weight : ℚ) (d : ℤ)
    (hd : 0 < d) (hw : 0 ≤ weight) (hpt : 0 ≤ w.player_total) :
    (weight < tiny →
      Ward.add_player_weight w weight (some (WKey.id d)) = Except.ok w) ∧
    (exceptIsOk (Ward.add_player_weight w weight (some (WKey.id d))) = false ↔
      w.player_total + tiny ≤ weight) ∧
    (tiny ≤ weight → weight < w.player_total + tiny →
      Ward.add_player_weight w weight (some (WKey.id d)) =
        Except.ok { w with
          players := aset (WKey.id d)
            ((alookup (WKey.id d) w.players).getD 0 +
              (if qabs (weight - w.player_total) < tiny then w.player_total else weight))
            w.players,
          player_total :=
            if w.player_total -
                 (if qabs (weight - w.player_total) < tiny then w.player_total
                  else weight) < tiny then 0
            else w.player_total -
              (if qabs (weight - w.player_total) < tiny then w.player_total
               else weight) }) := by
  have htiny : (0 : ℚ) < tiny := by norm_num [tiny]
  have hwv : asPositiveFloat weight = Except.ok weight := by
    simp [asPositiveFloat, not_lt.mpr hw]
  have hdv : resolveDestination w (some (WKey.id d)) = Except.ok (WKey.id d) := by
    simp only [resolveDestination, asPositiveInteger]
    rw [if_neg (by omega), if_neg (by rintro ⟨-, h⟩; omega)]
    rfl
  have hrun : Ward.add_player_weight w weight (some (WKey.id d)) =
      (if weight < tiny then Except.ok w
       else if (if qabs (weight - w.player_total) < tiny then w.player_total else weight) >
           w.player_total then
         Except.error "the sum of weights must be <= 1.0"
       else
         Except.ok { w with
           players := aset (WKey.id d)
             ((alookup (WKey.id d) w.players).getD 0 +
               (if qabs (weight - w.player_total) < tiny then w.player_total else weight))
             w.players,
           player_total :=
             if w.player_total -
                  (if qabs (weight - w.player_total) < tiny then w.player_total
                   else weight) < tiny then 0
             else w.player_total -
               (if qabs (weight - w.player_total) < tiny then w.player_total
                else weight) }) := by
    simp only [Ward.add_player_weight, hwv, hdv, Except.bind, bind]
  refine ⟨?_, ?_, ?_⟩
  · intro hlt
    rw [hrun, if_pos hlt]
  · rw [hrun]
    by_cases h1 : weight < tiny
    · rw [if_pos h1]
      refine iff_of_false (by simp [exceptIsOk]) ?_
      intro hge
      linarith
    · rw [if_neg h1]
      push_neg at h1
      by_cases h2 : qabs (weight - w.player_total) < tiny
      · rw [if_pos h2]
        rw [if_neg (lt_irrefl w.player_total)]
        refine iff_of_false (by simp [exceptIsOk]) ?_
        intro hge
        have hq := le_qabs (weight - w.player_total)
        linarith
      · rw [if_neg h2]
        by_cases h3 : weight > w.player_total
        · rw [if_pos h3]
          refine iff_of_true rfl ?_
          have habs : qabs (weight - w.player_total) = weight - w.player_total := by
            simp only [qabs]
            rw [if_neg (by linarith)]
          rw [habs] at h2
          push_neg at h2
          linarith
        · rw [if_neg h3]
          refine iff_of_false (by simp [exceptIsOk]) ?_
          push_neg at h3
          intro hge
          linarith
  · intro hA hB
    rw [hrun, if_neg (not_lt.mpr hA)]
    by_cases h2 : qabs (weight - w.player_total) < tiny
    · rw [if_pos h2, if_neg (lt_irrefl w.player_total)]
    · rw [if_neg h2]
      have h3 : ¬ weight > w.player_total := by
        intro hgt
        have habs : qabs (weight - w.player_total) = weight - w.player_total := by
          simp only [qabs]
          rw [if_neg (by linarith)]
        rw [habs] at h2
        push_neg at h2
        linarith
      rw [if_neg h3]

/-- Witness for C6: adding weight 1/4 to a fresh ward (residual 1) stores
1/4 on the destination and leaves a residual of 3/4. -/
theorem add_player_weight_spec_witness :
    Ward.add_player_weight wardC6w (1/4) (some (WKey.id 2)) =
      Except.ok { wardC6w with players := [(WKey.id 2, 1/4)], player_total := 3/4 } :=
  ((add_player_weight_spec wardC6w (1/4) 2 (by norm_num) (by norm_num)
      (by norm_num [wardC6w])).2.2 (by norm_num [tiny])
      (by norm_num [wardC6w, tiny])).trans
    (by norm_num [wardC6w, tiny, qabs, aset, alookup])

/-- Counterexample to C9: a resolved auto-assign ward with residual 0 and
no explicit self-play entry still gets its own id (1) included in the lists
returned by `get_player_lists` - with weight 0 - although the claim states
the own id must not appear when the residual is 0. -/
theorem get_player_lists_auto_counterexample :
    wardC9c.player_total = 0 ∧
    alookup (WKey.id 1) wardC9c.players = none ∧
    wardC9c.auto_assign_players = true ∧
    Ward.get_player_lists wardC9c false = Except.ok ([1, 2], [0, 1]) := by
  refine ⟨rfl, by norm_num [wardC9c, alookup], rfl, ?_⟩
  norm_num [Ward.get_player_lists, wardC9c, wkeys, sortKeysE, keysToInts, idsOf,
    List.insertionSort, List.orderedInsert, alookup, Except.bind, bind]

/-- Claim C9 (amended): for a resolved ward with `auto_assign_players`
true, `get_player_lists()` always includes the ward's own id in the
returned destination list - appending it when it is not an explicit key -
with weight equal to the explicit self weight plus the residual
`player_total`, even when the residual is 0; with `no_auto_assign=True`
the id is not appended and no residual is added to any weight. -/
theorem get_player_lists_appends_self (w : Ward) (i : ℤ)
    (hid : w.id = some i)
    (hkeys : ∀ k ∈ wkeys w.players, ∃ n, k = WKey.id n)
    (hauto : w.auto_assign_players = true) :
    (Ward.get_player_lists w false =
      Except.ok
        (List.insertionSort (fun a b => a ≤ b)
          (idsOf (if WKey.id i ∈ wkeys w.players then wkeys w.players
                  else wkeys w.players ++ [WKey.id i])),
         (List.insertionSort (fun a b => a ≤ b)
           (idsOf (if WKey.id i ∈ wkeys w.players then wkeys w.players
                   else wkeys w.players ++ [WKey.id i]))).map
           (fun k => (alookup (WKey.id k) w.players).getD 0 +
             (if w.id = some k then w.player_total else 0))) ∧
      i ∈ List.insertionSort (fun a b => a ≤ b)
        (idsOf (if WKey.id i ∈ wkeys w.players then wkeys w.players
                else wkeys w.players ++ [WKey.id i]))) ∧
    (Ward.get_player_lists w true =
      Except.ok
        (List.insertionSort (fun a b => a ≤ b) (idsOf (wkeys w.players)),
         (List.insertionSort (fun a b => a ≤ b) (idsOf (wkeys w.players))).map
           (fun k => (alookup (WKey.id k) w.players).getD 0))) := by
  have hsorted : ∀ ks : List WKey, (∀ k ∈ ks, ∃ n, k = WKey.id n) →
      sortKeysE ks = Except.ok (List.insertionSort (fun a b => a ≤ b) (idsOf ks)) := by
    intro ks hks
    simp only [sortKeysE, keysToInts_ok hks, Except.bind, bind]
  have hkeys1 : ∀ k ∈ (if WKey.id i ∈ wkeys w.players then wkeys w.players
      else wkeys w.players ++ [WKey.id i]), ∃ n, k = WKey.id n := by
    intro k hk
    by_cases hmem : WKey.id i ∈ wkeys w.players
    · rw [if_pos hmem] at hk
      exact hkeys k hk
    · rw [if_neg hmem] at hk
      rcases List.mem_append.mp hk with h | h
      · exact hkeys k h
      · simp only [List.mem_singleton] at h
        exact ⟨i, h⟩
  refine ⟨⟨?_, ?_⟩, ?_⟩
  · simp only [Ward.get_player_lists, hauto, Bool.not_false, Bool.true_and, hid,
      if_true, Except.bind, bind, hsorted _ hkeys1]
    simp only [eq_self_iff_true, true_and, if_true]
  · have hperm := List.perm_insertionSort (fun a b => a ≤ b)
      (idsOf (if WKey.id i ∈ wkeys w.players then wkeys w.players
              else wkeys w.players ++ [WKey.id i]))
    rw [List.Perm.mem_iff hperm]
    by_cases hmem : WKey.id i ∈ wkeys w.players
    · rw [if_pos hmem]
      exact mem_idsOf hmem
    · rw [if_neg hmem]
      simp [idsOf_append, idsOf]
  · simp only [Ward.get_player_lists, Bool.not_true, Bool.false_and, Except.bind, bind,
      hsorted _ hkeys]
    simp

/-- Witness for C9: a resolved auto-assign ward with id 3, an explicit
quarter weight on ward 1 and residual 3/4 reports destinations `[1, 3]`
with weights `[1/4, 3/4]` - the own id 3 is appended carrying the
residual. -/
theorem get_player_lists_appends_self_witness :
    Ward.get_player_lists wardC9w false = Except.ok ([1, 3], [1/4, 3/4]) :=
  ((get_player_lists_appends_self wardC9w 3 rfl
      (by
        intro k hk
        simp only [wardC9w, wkeys_cons, wkeys_nil, List.mem_singleton] at hk
        exact ⟨1, hk⟩)
      rfl).1.1).trans
    (by norm_num [wardC9w, wkeys, idsOf, List.insertionSort, List.orderedInsert, alookup])

/-- Counterexample to C3: resolving a ward whose single worker key is a
`WardInfo` absent from the (empty) wards collection succeeds and leaves the
key unresolved, rather than failing with an error as the claim states; in
particular on success not every key is an integer id. -/
theorem resolve_missing_counterexample :
    Ward.resolve wardC3c [] = Except.ok wardC3c ∧
    wkeys wardC3c.workers = [WKey.info infoA] := by
  constructor
  · rfl
  · rfl

/-- Claim C3 (amended): `resolve` silently leaves in place any non-integer
key that is not present in the passed wards collection (no error); on
success every key of both maps is either an integer id or a non-integer key
absent from the collection - so when every non-integer key is present, all
keys of the result are integer ids; and whenever a non-integer key of
either map is present in the collection with an index that collides with an
existing integer key of the same map, `resolve` fails with an error. -/
theorem resolve_spec (w : Ward) (ws : WardsLookup)
    (hwn : (wkeys w.workers).Nodup) (hpn : (wkeys w.players).Nodup) :
    (∀ w', Ward.resolve w ws = Except.ok w' →
      ∀ k ∈ wkeys w'.workers ++ wkeys w'.players,
        (∃ n, k = WKey.id n) ∨ ∃ i, k = WKey.info i ∧ lookupWard ws i = none) ∧
    (∀ i idx, WKey.info i ∈ wkeys w.workers → lookupWard ws i = some idx →
      WKey.id idx ∈ wkeys w.workers → exceptIsOk (Ward.resolve w ws) = false) ∧
    (∀ i idx, WKey.info i ∈ wkeys w.players → lookupWard ws i = some idx →
      WKey.id idx ∈ wkeys w.players → exceptIsOk (Ward.resolve w ws) = false) := by
  refine ⟨?_, ?_, ?_⟩
  · intro w' h k hk
    cases hw1 : resolveMap ws (wkeys w.workers) w.workers with
    | error e =>
      simp only [Ward.resolve, hw1, Except.bind, bind] at h
      exact Except.noConfusion h
    | ok workersR =>
      cases hp1 : resolveMap ws (wkeys w.players) w.players with
      | error e =>
        simp only [Ward.resolve, hw1, hp1, Except.bind, bind] at h
        exact Except.noConfusion h
      | ok playersR =>
        simp only [Ward.resolve, hw1, hp1, Except.bind, bind, Except.ok.injEq] at h
        subst h
        rcases List.mem_append.mp hk with hk1 | hk1
        · cases k with
          | id n => exact Or.inl ⟨n, rfl⟩
          | info i =>
            refine Or.inr ⟨i, rfl, ?_⟩
            rcases resolveMap_keys hw1 _ hk1 with hin | hid
            · exact resolveMap_resolves hwn hw1 i hin hk1
            · obtain ⟨n, hn⟩ := hid
              exact WKey.noConfusion hn
        · cases k with
          | id n => exact Or.inl ⟨n, rfl⟩
          | info i =>
            refine Or.inr ⟨i, rfl, ?_⟩
            rcases resolveMap_keys hp1 _ hk1 with hin | hid
            · exact resolveMap_resolves hpn hp1 i hin hk1
            · obtain ⟨n, hn⟩ := hid
              exact WKey.noConfusion hn
  · intro i idx him hl hcol
    have hko := resolveMap_collision him hl hcol
    cases hw1 : resolveMap ws (wkeys w.workers) w.workers with
    | error e =>
      simp only [Ward.resolve, hw1, Except.bind, bind]
      rfl
    | ok workersR =>
      rw [hw1] at hko
      exact Bool.noConfusion hko
  · intro i idx him hl hcol
    have hko := resolveMap_collision him hl hcol
    cases hw1 : resolveMap ws (wkeys w.workers) w.workers with
    | error e =>
      simp only [Ward.resolve, hw1, Except.bind, bind]
      rfl
    | ok workersR =>
      cases hp1 : resolveMap ws (wkeys w.players) w.players with
      | error e =>
        simp only [Ward.resolve, hw1, hp1, Except.bind, bind]
        rfl
      | ok playersR =>
        rw [hp1] at hko
        exact Bool.noConfusion hko

/-- Witness for C3: a ward whose workers map holds the integer key 7 and a
`WardInfo` key that the wards collection maps to index 7; `resolve` fails
on the collision. -/
theorem resolve_spec_witness :
    exceptIsOk (Ward.resolve wardC3w [(infoA, 7)]) = false :=
  (resolve_spec wardC3w [(infoA, 7)]
      (by
        simp only [wardC3w, wkeys_cons, wkeys_nil, List.nodup_cons, List.mem_singleton,
          List.not_mem_nil, not_false_iff, List.nodup_nil, and_true, List.mem_cons]
        rintro (hc | hc)
        · exact WKey.noConfusion hc
        · exact hc)
      (by simp [wardC3w])).2.1 infoA 7
    (by simp [wardC3w]) (by simp [lookupWard]) (by simp [wardC3w])

theorem map_fst_pairs {α β : Type} (l : List α) (g : α → β) :
    (l.map (fun a => (a, g a))).map Prod.fst = l := by
  induction l with
  | nil => rfl
  | cons a rest ih => simp [ih]

/-- Counterexample to C5: the ward with player weight
`1 - 5e-11` on ward 2 and residual `player_total = 5e-11` is sane (its
weights sum to exactly 1), yet `from_data` clamps any reconstructed
residual strictly within `1e-10` of zero to exactly 0, so the round trip
returns a ward whose `player_total` differs and equality fails. -/
theorem roundtrip_counterexample :
    SaneWard wardC5c ∧ roundTrips wardC5c = false := by
  constructor
  · refine ⟨⟨1, rfl, by norm_num⟩, ?_, ?_, ?_, ?_, ?_, ?_, ?_, ?_, ?_⟩
    · intro k hk
      simp [wardC5c] at hk
    · intro k hk
      simp only [wardC5c, wkeys_cons, wkeys_nil, List.mem_singleton] at hk
      subst hk
      rfl
    · simp [wardC5c]
    · simp [wardC5c]
    · intro v hv
      simp [wardC5c] at hv
    · intro v hv
      simp only [wardC5c, wvals_cons, wvals_nil, List.mem_singleton] at hv
      subst hv
      norm_num
    · norm_num [wardC5c, wvals]
    · norm_num [wardC5c, wvals]
    · norm_num [wardC5c]
  · norm_num [roundTrips, Ward.to_data, Ward.from_data, Ward.get_worker_lists,
      Ward.get_player_lists, sortKeysE, keysToInts, wkeys, wvals, idsOf,
      insertWorkerEntries, insertPlayerEntries, asPositiveInteger, asPositiveFloat,
      alookup, aset, tiny, qabs, Ward.assert_sane, wardEq, dictBeq,
      List.insertionSort, List.orderedInsert, Except.bind, bind, wardC5c]

/-- Claim C5 (amended): for every sane ward whose residual `player_total`
is either exactly 0 or at least `1e-10`, serialising with `to_data` and
deserialising with `from_data` succeeds and returns a ward equal to the
original in the sense of `Ward.__eq__`.  (Without the residual condition
the round trip fails: `from_data` clamps a tiny positive residual to 0.) -/
theorem from_to_data_roundtrip (w : Ward) (h : SaneWard w)
    (hpt : w.player_total = 0 ∨ tiny ≤ w.player_total) :
    roundTrips w = true := by
  obtain ⟨i, hid, hipos⟩ := h.id_pos
  have htiny : (0 : ℚ) < tiny := by norm_num [tiny]
  have hwall : ∀ k ∈ wkeys w.workers, ∃ n, k = WKey.id n := by
    intro k hk
    obtain ⟨n, -, hn⟩ := isPosIdKey_elim (h.workers_keys k hk)
    exact ⟨n, hn⟩
  have hpall : ∀ k ∈ wkeys w.players, ∃ n, k = WKey.id n := by
    intro k hk
    obtain ⟨n, -, hn⟩ := isPosIdKey_elim (h.players_keys k hk)
    exact ⟨n, hn⟩
  set ssW := List.insertionSort (fun a b => a ≤ b) (idsOf (wkeys w.workers)) with hssW
  set ssP := List.insertionSort (fun a b => a ≤ b) (idsOf (wkeys w.players)) with hssP
  have hpermW : ssW.Perm (idsOf (wkeys w.workers)) := List.perm_insertionSort _ _
  have hpermP : ssP.Perm (idsOf (wkeys w.players)) := List.perm_insertionSort _ _
  have hndW : ssW.Nodup := (List.Perm.nodup_iff hpermW).mpr (nodup_idsOf h.workers_nodup)
  have hndP : ssP.Nodup := (List.Perm.nodup_iff hpermP).mpr (nodup_idsOf h.players_nodup)
  set gW : ℤ → ℤ := fun s => (alookup (WKey.id s) w.workers).getD 0 with hgW
  set gP : ℤ → ℚ := fun s => (alookup (WKey.id s) w.players).getD 0 with hgP
  have hmemW : ∀ s ∈ ssW, WKey.id s ∈ wkeys w.workers := by
    intro s hs
    exact idsOf_mem (hpermW.mem_iff.mp hs)
  have hmemP : ∀ s ∈ ssP, WKey.id s ∈ wkeys w.players := by
    intro s hs
    exact idsOf_mem (hpermP.mem_iff.mp hs)
  have hGW : w.get_worker_lists = Except.ok (ssW, ssW.map gW) := by
    simp only [Ward.get_worker_lists, sortKeysE, keysToInts_ok hwall, Except.bind, bind]
  have hGP : w.get_player_lists true = Except.ok (ssP, ssP.map gP) := by
    simp only [Ward.get_player_lists, Bool.not_true, Bool.false_and, sortKeysE,
      keysToInts_ok hpall, Except.bind, bind]
    simp
  have hTD : w.to_data = Except.ok {
      id := w.id, position := w.pos, info := w.info,
      auto_assign_players := if w.auto_assign_players then none else some false,
      num_workers := w.num_workers, num_players := w.num_players,
      workers := if ssW.isEmpty then none else some (ssW, ssW.map gW),
      players := if ssP.isEmpty then none else some (ssP, ssP.map gP) } := by
    simp only [Ward.to_data, hGW, hGP, Except.bind, bind]
  -- the reconstructed maps
  set workersR : WMap ℤ := ssW.map (fun s => (WKey.id s, gW s)) with hworkersR
  set playersR : WMap ℚ := ssP.map (fun s => (WKey.id s, gP s)) with hplayersR
  have hIW : insertWorkerEntries (ssW.zip (ssW.map gW)) [] = Except.ok workersR := by
    rw [zip_self_map]
    have := insertWorkerEntries_ok (ssW.map (fun s => (s, gW s))) []
      (by
        intro e he
        obtain ⟨s, hs, he'⟩ := List.mem_map.mp he
        obtain ⟨n, hn0, hn⟩ := isPosIdKey_elim (h.workers_keys _ (hmemW s hs))
        injection hn with hn
        subst he'
        simpa [hn] using hn0)
      (by
        intro e he
        obtain ⟨s, hs, he'⟩ := List.mem_map.mp he
        subst he'
        obtain ⟨v, hv⟩ := Option.isSome_iff_exists.mp
          ((alookup_isSome_iff _ _).mpr (hmemW s hs))
        simp only [hgW, hv, Option.getD_some]
        exact h.workers_nonneg v (alookup_mem_wvals hv))
      (by
        intro e he
        simp)
      (by
        rw [map_fst_pairs]
        exact hndW)
    rw [this]
    simp [hworkersR, List.map_map]
  have hIP : insertPlayerEntries (ssP.zip (ssP.map gP)) [] = Except.ok playersR := by
    rw [zip_self_map]
    have := insertPlayerEntries_ok (ssP.map (fun s => (s, gP s))) []
      (by
        intro e he
        obtain ⟨s, hs, he'⟩ := List.mem_map.mp he
        obtain ⟨n, hn0, hn⟩ := isPosIdKey_elim (h.players_keys _ (hmemP s hs))
        injection hn with hn
        subst he'
        simpa [hn] using hn0)
      (by
        intro e he
        obtain ⟨s, hs, he'⟩ := List.mem_map.mp he
        subst he'
        obtain ⟨v, hv⟩ := Option.isSome_iff_exists.mp
          ((alookup_isSome_iff _ _).mpr (hmemP s hs))
        simp only [hgP, hv, Option.getD_some]
        exact h.players_nonneg v (alookup_mem_wvals hv))
      (by
        intro e he
        simp)
      (by
        rw [map_fst_pairs]
        exact hndP)
    rw [this]
    simp [hplayersR, List.map_map]
  have hwvalsR : wvals workersR = ssW.map gW := by
    simp [hworkersR, wvals, List.map_map, Function.comp]
  have hpvalsR : wvals playersR = ssP.map gP := by
    simp [hplayersR, wvals, List.map_map, Function.comp]
  have hsumW : (ssW.map gW).sum = w.num_workers := by
    rw [(hpermW.map gW).sum_eq, hgW, map_getD_eq_wvals 0 hwall h.workers_nodup,
      h.worker_sum]
  have hsumP : (ssP.map gP).sum = (wvals w.players).sum := by
    rw [(hpermP.map gP).sum_eq, hgP, map_getD_eq_wvals 0 hpall h.players_nodup]
  have hpt0 : 1 - (ssP.map gP).sum = w.player_total := by
    rw [hsumP]
    linarith [h.player_sum]
  -- the reconstructed ward
  have hasi : asPositiveInteger i false = Except.ok i := by
    simp only [asPositiveInteger]
    rw [if_neg (by omega), if_neg (by rintro ⟨-, hc⟩; omega)]
  have hnp : asPositiveInteger w.num_players true = Except.ok w.num_players := by
    simp only [asPositiveInteger]
    rw [if_neg (not_lt.mpr h.nplayers_nonneg),
      if_neg (by rintro ⟨hc, -⟩; exact Bool.noConfusion hc)]
  have hsane : Ward.assert_sane
      { id := some i, info := w.info, workers := workersR, players := playersR,
        player_total := w.player_total, num_workers := w.num_workers,
        num_players := w.num_players, pos := w.pos,
        auto_assign_players := w.auto_assign_players } = Except.ok () := by
    simp only [Ward.assert_sane]
    rw [if_neg (by omega)]
    rw [if_neg (by
      rw [hpvalsR, hsumP]
      have : (wvals w.players).sum + w.player_total - 1 = 0 := by
        linarith [h.player_sum]
      rw [this]
      norm_num [qabs])]
    rw [if_neg (by
      rw [hwvalsR, hsumW]
      norm_num [qabs])]
  have hFD : Ward.from_data {
      id := w.id, position := w.pos, info := w.info,
      auto_assign_players := if w.auto_assign_players then none else some false,
      num_workers := w.num_workers, num_players := w.num_players,
      workers := if ssW.isEmpty then none else some (ssW, ssW.map gW),
      players := if ssP.isEmpty then none else some (ssP, ssP.map gP) } =
      Except.ok
        { id := some i, info := w.info, workers := workersR, players := playersR,
          player_total := w.player_total, num_workers := w.num_workers,
          num_players := w.num_players, pos := w.pos,
          auto_assign_players := w.auto_assign_players } := by
    have hwz : ((if ssW.isEmpty then none
        else some (ssW, ssW.map gW)).getD ([], [])).1.zip
        ((if ssW.isEmpty then none else some (ssW, ssW.map gW)).getD ([], [])).2 =
        ssW.zip (ssW.map gW) := by
      by_cases he : ssW.isEmpty
      · have h0 : ssW = [] := List.isEmpty_iff.mp he
        rw [if_pos he, h0]
        rfl
      · rw [if_neg he]
        rfl
    have hpz : ((if ssP.isEmpty then none
        else some (ssP, ssP.map gP)).getD ([], [])).1.zip
        ((if ssP.isEmpty then none else some (ssP, ssP.map gP)).getD ([], [])).2 =
        ssP.zip (ssP.map gP) := by
      by_cases he : ssP.isEmpty
      · have h0 : ssP = [] := List.isEmpty_iff.mp he
        rw [if_pos he, h0]
        rfl
      · rw [if_neg he]
        rfl
    have hauto : ((if w.auto_assign_players then none
        else some false : Option Bool).getD true) = w.auto_assign_players := by
      cases hb : w.auto_assign_players <;> simp [hb]
    simp only [Ward.from_data, hid, hasi, hnp, hwz, hpz, hIW, hIP, hwvalsR, hpvalsR,
      hsumW, hauto, Except.bind, bind]
    rw [if_neg (by rintro ⟨-, hc⟩; exact hc rfl)]
    rcases hpt with hz | hge
    · rw [if_pos (by rw [hpt0, hz]; simpa [qabs] using htiny)]
      rw [hz] at hsane
      rw [hz]
      simp only [hsane]
    · have hq : ¬ qabs (1 - (List.map gP ssP).sum) < tiny := by
        rw [hpt0]
        simp only [qabs]
        rw [if_neg (by linarith)]
        linarith
      rw [if_neg hq, if_neg (by rw [hpt0]; linarith)]
      rw [hpt0]
      simp only [hsane]
  have hlookW : ∀ k, alookup k workersR = alookup k w.workers := by
    intro k
    rw [hworkersR, hgW]
    exact alookup_sorted_reconstruction 0 hwall h.workers_nodup hpermW k
  have hlookP : ∀ k, alookup k playersR = alookup k w.players := by
    intro k
    rw [hplayersR, hgP]
    exact alookup_sorted_reconstruction 0 hpall h.players_nodup hpermP k
  have hndWR : (wkeys workersR).Nodup := by
    rw [hworkersR]
    exact nodup_wkeys_pairs gW hndW
  have hndPR : (wkeys playersR).Nodup := by
    rw [hplayersR]
    exact nodup_wkeys_pairs gP hndP
  have hEq : wardEq
      { id := some i, info := w.info, workers := workersR, players := playersR,
        player_total := w.player_total, num_workers := w.num_workers,
        num_players := w.num_players, pos := w.pos,
        auto_assign_players := w.auto_assign_players } w = true := by
    simp [wardEq, hid, dictBeq_of_forall hlookW hndWR h.workers_nodup,
      dictBeq_of_forall hlookP hndPR h.players_nodup]
  simp only [roundTrips, hTD, Except.bind, bind, hFD]
  exact hEq

/-- Witness for C5: a sane ward with a worker link, a player link, a
position and residual 1/2 survives the serialisation round trip. -/
theorem from_to_data_roundtrip_witness : roundTrips wardC5w = true :=
  from_to_data_roundtrip wardC5w
    (by
      refine ⟨⟨1, rfl, by norm_num⟩, ?_, ?_, ?_, ?_, ?_, ?_, ?_, ?_, ?_⟩
      · intro k hk
        simp only [wardC5w, wkeys_cons, wkeys_nil, List.mem_singleton] at hk
        subst hk
        rfl
      · intro k hk
        simp only [wardC5w, wkeys_cons, wkeys_nil, List.mem_singleton] at hk
        subst hk
        rfl
      · simp [wardC5w]
      · simp [wardC5w]
      · intro v hv
        simp only [wardC5w, wvals_cons, wvals_nil, List.mem_singleton] at hv
        subst hv
        norm_num
      · intro v hv
        simp only [wardC5w, wvals_cons, wvals_nil, List.mem_singleton] at hv
        subst hv
        norm_num
      · norm_num [wardC5w, wvals]
      · norm_num [wardC5w, wvals]
      · norm_num [wardC5w])
    (Or.inr (by norm_num [wardC5w, tiny]))

end MetaWards
